import Mathlib

/-!
Formal model of the PCBack feedback-intake application.

The Python sources live in the feedback app: models.py (the Feedback model and
its save-time sanitization), serializers.py (FeedbackCreateSerializer with the
per-field validators and the duplicate-suppression check) and views.py (the
create pipeline with throttling, the blocked-IP check, and the admin detail
update).  Strings are modelled as lists of characters, timestamps as integers
counting seconds, and the database as an in-memory list of records.

The HTML sanitizer used by the code (bleach.clean and the Django strip_tags
helper) is third-party library code that is not part of this repository; it is
modelled from the spec contract in section 4.1: sanitize removes all markup
outside the allowed tag set, keeps allowed tags verbatim, never raises, and on
malformed markup (an unterminated tag) degrades to stripping the rest.
-/

namespace PCBack

abbrev Str := List Char

/-- ASCII lowercasing of one character, as Python str.lower acts on ASCII. -/
def lowChar (c : Char) : Char :=
  if 'A' ≤ c ∧ c ≤ 'Z' then Char.ofNat (c.toNat + 32) else c

/-- Python str.lower restricted to ASCII letters. -/
def lowerStr (s : Str) : Str := s.map lowChar

def wsp (c : Char) : Bool := c.isWhitespace

/-- Python str.strip: drop whitespace from both ends. -/
def trimL (s : Str) : Str :=
  ((s.dropWhile wsp).reverse.dropWhile wsp).reverse

/-- Python str.split(sep) for a one-character separator. -/
def splitOnChar (sep : Char) : Str → List Str
  | [] => [[]]
  | c :: rest =>
    match splitOnChar sep rest with
    | [] => [[]]
    | h :: t => if c = sep then [] :: h :: t else (c :: h) :: t

def startsWithL : Str → Str → Bool
  | [], _ => true
  | _ :: _, [] => false
  | p :: ps, c :: cs => p = c && startsWithL ps cs

/-- Python substring containment (the `in` operator on strings). -/
def containsSeq (pat : Str) : Str → Bool
  | [] => startsWithL pat []
  | c :: rest => startsWithL pat (c :: rest) || containsSeq pat rest

/-- Length of the run of copies of c at the head of the list. -/
def runLen (c : Char) : Str → Nat
  | [] => 0
  | x :: xs => if x = c then runLen c xs + 1 else 0

/-- Some character occurs at least n times consecutively (n is at least 1). -/
def hasRunGe (n : Nat) : Str → Bool
  | [] => false
  | c :: rest => decide (n ≤ runLen c rest + 1) || hasRunGe n rest

/-- The repeated-character check of serializers.py line 117:
re.search of the pattern `(.)\1{10,}` with n = 11.  The dot of a Python regex
does not match a newline (no DOTALL flag is passed), so the captured repeated
character can never be a newline: a run of newlines does not fire the check. -/
def hasRunGeNoNewline (n : Nat) : Str → Bool
  | [] => false
  | c :: rest =>
    (decide (c ≠ '\n') && decide (n ≤ runLen c rest + 1)) || hasRunGeNoNewline n rest

/-- serializers.py lines 60 and 112: the fixed spam-word list. -/
def spam_words : List Str :=
  ["casino".data, "viagra".data, "free money".data, "click here".data, "win now".data]

/-- serializers.py: any(word in clean_value.lower() for word in spam_words). -/
def containsSpamWord (s : Str) : Bool :=
  spam_words.any (fun w => containsSeq w (lowerStr s))

/-! ## The sanitizer (modelled from the spec, section 4.1)

bleach.clean / django strip_tags are library code outside this repository.
Modelled from the spec: sanitize(text, allowedTags) removes all markup outside
allowedTags, keeps allowed tags verbatim, and on malformed markup (a tag that
is never closed by a greater-than sign) degrades to stripping everything. -/

/-- Tag name of the text between the angle brackets: drop one leading slash,
take up to the first whitespace or slash, lowercase. -/
def tagName (buf : Str) : Str :=
  let core := match buf with
    | '/' :: t => t
    | t => t
  lowerStr (core.takeWhile (fun c => !(c.isWhitespace || c == '/')))

/-- One left-to-right pass.  The second argument is none in text mode and
some buf while scanning a tag whose body so far is buf. -/
def sanitizeAux (allowed : List Str) : Str → Option Str → Str
  | [], _ => []
  | c :: rest, none =>
    if c = '<' then sanitizeAux allowed rest (some [])
    else c :: sanitizeAux allowed rest none
  | c :: rest, some buf =>
    if c = '>' then
      (if tagName buf ∈ allowed then '<' :: (buf ++ ['>']) else []) ++
        sanitizeAux allowed rest none
    else sanitizeAux allowed rest (some (buf ++ [c]))

def sanitize (allowed : List Str) (s : Str) : Str := sanitizeAux allowed s none

/-- django.utils.html.strip_tags: remove all markup (strict mode). -/
def strip_tags (s : Str) : Str := sanitize [] s

/-- serializers.py line 102 and models.py line 125: allowed_tags for message. -/
def message_allowed_tags : List Str :=
  ["p".data, "br".data, "strong".data, "em".data, "u".data]

/-- The default allow-list of bleach.clean, used by models.py save for theme,
name_person and name_company (bleach.clean(x, strip=True) with no tags
argument). -/
def bleach_default_tags : List Str :=
  ["a".data, "abbr".data, "acronym".data, "b".data, "blockquote".data,
   "code".data, "em".data, "i".data, "li".data, "ol".data, "strong".data,
   "ul".data]

/-- Split at the first greater-than sign: returns the part before and after. -/
def splitAtGt : Str → Option (Str × Str)
  | [] => none
  | c :: rest =>
    if c = '>' then some ([], rest)
    else match splitAtGt rest with
      | none => none
      | some (i, a) => some (c :: i, a)

/-! ## Field validators (serializers.py, FeedbackCreateSerializer)

Each runField function models the full pipeline of the corresponding
serializer field: the required check and whitespace trimming done by the DRF
CharField, the length validators inherited from the model field (which run on
the trimmed raw value), and then the validate_field method exactly as written
in serializers.py.  A result of none is a field error. -/

/-- serializers.py line 34: the disposable-domain blocklist. -/
def suspicious_domains : List Str :=
  ["tempmail.org".data, "10minutemail.com".data, "guerrillamail.com".data,
   "mailinator.com".data, "temp-mail.org".data]

/-- Modelled from the spec: the syntactic email validity check of the Django
EmailValidator (library code not in src/): one at-sign separating a nonempty
local part from a nonempty domain, no whitespace, and a domain containing an
interior dot. -/
def pyEmailValid (v : Str) : Bool :=
  match splitOnChar '@' v with
  | [lp, dom] =>
    decide (lp ≠ []) && decide (dom ≠ []) && v.all (fun c => !c.isWhitespace) &&
    decide ('.' ∈ dom) && decide (dom.head? ≠ some '.') &&
    decide (dom.getLast? ≠ some '.')
  | _ => false

/-- serializers.py lines 28-43: validate_email.  The domain is element 1 of
value.split, lowercased; membership in the blocklist is a rejection; the
accepted value is value.lower().strip(). -/
def validate_email (value : Str) : Option Str :=
  if value = [] then none
  else
    let domain := if '@' ∈ value then lowerStr ((splitOnChar '@' value).getD 1 []) else []
    if domain ∈ suspicious_domains then none
    else some (trimL (lowerStr value))

/-- serializers.py lines 45-64: validate_theme on the DRF-trimmed value. -/
def validate_theme (value : Str) : Option Str :=
  if trimL value = [] then none
  else
    let clean_value := trimL (strip_tags value)
    if clean_value.length < 5 then none
    else if 200 < clean_value.length then none
    else if containsSpamWord clean_value then none
    else some clean_value

/-- The character class of the name regex in serializers.py line 80:
latin letters, cyrillic letters (with yo), whitespace, hyphen, period. -/
def personCharOk (c : Char) : Bool :=
  (decide ('a' ≤ c) && decide (c ≤ 'z')) ||
  (decide ('A' ≤ c) && decide (c ≤ 'Z')) ||
  (decide ('а' ≤ c) && decide (c ≤ 'я')) ||
  (decide ('А' ≤ c) && decide (c ≤ 'Я')) ||
  c == 'ё' || c == 'Ё' || c.isWhitespace || c == '-' || c == '.'

/-- serializers.py lines 66-83: validate_name_person. -/
def validate_name_person (value : Str) : Option Str :=
  if trimL value = [] then none
  else
    let clean_value := trimL (strip_tags value)
    if clean_value.length < 2 then none
    else if 100 < clean_value.length then none
    else if clean_value.all personCharOk then some clean_value
    else none

/-- serializers.py lines 85-94: validate_name_company.  A falsy (empty) value
is returned unchanged. -/
def validate_name_company (value : Str) : Option Str :=
  if value ≠ [] then
    let clean_value := trimL (strip_tags value)
    if 150 < clean_value.length then none
    else some clean_value
  else some value

/-- serializers.py lines 96-120: validate_message.  Permissive sanitization,
length window, spam words, and the repeated-character regex (whose dot cannot
capture a newline, see hasRunGeNoNewline). -/
def validate_message (value : Str) : Option Str :=
  if trimL value = [] then none
  else
    let clean_value := trimL (sanitize message_allowed_tags value)
    if clean_value.length < 10 then none
    else if 2000 < clean_value.length then none
    else if containsSpamWord clean_value then none
    else if hasRunGeNoNewline 11 clean_value then none
    else some clean_value

/-- models.py ACTOR_CHOICES keys. -/
def valid_actors : List Str := ["advertiser".data, "author".data, "question".data]

/-- serializers.py lines 122-127: validate_actor. -/
def validate_actor (value : Str) : Option Str :=
  if value ∈ valid_actors then some value else none

/-- actor field: required; the DRF ChoiceField accepts only declared choices
(no trimming), then validate_actor runs. -/
def runActor : Option Str → Option Str
  | none => none
  | some s => if s ∈ valid_actors then validate_actor s else none

/-- theme field: required CharField, trimmed, blank rejected, raw length
window from the model validators (min 5 / max 200), then validate_theme. -/
def runTheme : Option Str → Option Str
  | none => none
  | some s =>
    let t := trimL s
    if t = [] then none
    else if t.length < 5 then none
    else if 200 < t.length then none
    else validate_theme t

/-- email field: required EmailField, trimmed, blank rejected, syntactic
validity, then validate_email. -/
def runEmail : Option Str → Option Str
  | none => none
  | some s =>
    let t := trimL s
    if t = [] then none
    else if pyEmailValid t then validate_email t
    else none

/-- name_company field: optional; an absent value passes through and stays
absent; a present value is trimmed, checked against max length 150, then
validate_name_company runs. -/
def runCompany : Option Str → Option (Option Str)
  | none => some none
  | some s =>
    let t := trimL s
    if 150 < t.length then none
    else (validate_name_company t).map some

/-- name_person field: required CharField, trimmed, blank rejected, raw length
window (min 2 / max 100), then validate_name_person. -/
def runPerson : Option Str → Option Str
  | none => none
  | some s =>
    let t := trimL s
    if t = [] then none
    else if t.length < 2 then none
    else if 100 < t.length then none
    else validate_name_person t

/-- message field: required, trimmed, blank rejected, raw length window
(min 10 / max 2000 from the model validators), then validate_message. -/
def runMessage : Option Str → Option Str
  | none => none
  | some s =>
    let t := trimL s
    if t = [] then none
    else if t.length < 10 then none
    else if 2000 < t.length then none
    else validate_message t

/-- The raw payload of a create request; none is an absent field. -/
structure RawInput where
  actor : Option Str
  theme : Option Str
  email : Option Str
  name_company : Option Str
  name_person : Option Str
  message : Option Str
deriving DecidableEq

/-- Whether the named serializer field fails on this input. -/
def fieldFails (i : RawInput) : String → Bool
  | "actor" => (runActor i.actor).isNone
  | "theme" => (runTheme i.theme).isNone
  | "email" => (runEmail i.email).isNone
  | "name_company" => (runCompany i.name_company).isNone
  | "name_person" => (runPerson i.name_person).isNone
  | "message" => (runMessage i.message).isNone
  | _ => false

/-- Meta.fields of FeedbackCreateSerializer, in declaration order. -/
def serializer_fields : List String :=
  ["actor", "theme", "email", "name_company", "name_person", "message"]

/-- The keys of the aggregated DRF error report: every failing field, in field
order.  DRF collects the error of every field before raising. -/
def fieldErrorKeys (i : RawInput) : List String :=
  serializer_fields.filter (fieldFails i)

/-- The validated attrs dictionary after all field validators succeeded. -/
structure Validated where
  actor : Str
  theme : Str
  email : Str
  name_company : Option Str
  name_person : Str
  message : Str
deriving DecidableEq

/-- Runs all field validators; some attrs exactly when no field fails. -/
def fieldValidate (i : RawInput) : Option Validated :=
  match runActor i.actor, runTheme i.theme, runEmail i.email,
        runCompany i.name_company, runPerson i.name_person, runMessage i.message with
  | some a, some t, some e, some c, some p, some m =>
    some { actor := a, theme := t, email := e, name_company := c,
           name_person := p, message := m }
  | _, _, _, _, _, _ => none

/-! ## Persistence, throttling and the create / update views -/

/-- A stored Feedback row (models.py).  created_at counts seconds. -/
structure Record where
  actor : Str
  theme : Str
  email : Str
  name_company : Option Str
  name_person : Str
  message : Str
  status : Str
  ip_address : Str
  user_agent : Str
  created_at : Int
  rid : Nat
deriving DecidableEq, Repr

/-- models.py lines 112-132: Feedback.save sanitizes before writing.  theme,
name_person and name_company go through bleach.clean(x, strip=True), which
uses the bleach DEFAULT tag allow-list; message uses the explicit permissive
list.  A falsy (empty or absent) field is left untouched. -/
def modelSaveClean (r : Record) : Record :=
  { r with
    theme := if r.theme = [] then r.theme else sanitize bleach_default_tags r.theme
    name_person :=
      if r.name_person = [] then r.name_person
      else sanitize bleach_default_tags r.name_person
    name_company :=
      match r.name_company with
      | none => none
      | some c => if c = [] then some c else some (sanitize bleach_default_tags c)
    message :=
      if r.message = [] then r.message else sanitize message_allowed_tags r.message }

/-- serializers.py lines 129-146: the duplicate-suppression query.  A record
with the same validated email and theme created at or after now minus one hour
makes the submission a duplicate. -/
def dupRecent (store : List Record) (email theme : Str) (now : Int) : Bool :=
  store.any (fun r =>
    decide (r.email = email) && decide (r.theme = theme) &&
    decide (now - 3600 ≤ r.created_at))

/-- Cached request timestamps of the two DRF throttle scopes, keyed by the
anonymous client IP and by the user identity (the IP again for anonymous
users, as in UserRateThrottle). -/
structure ThrottleState where
  anonHist : Str → List Int
  userHist : Str → List Int

/-- DRF SimpleRateThrottle.allow_request for one key: drop entries older than
the hour window, deny when the limit is reached, otherwise record now. -/
def throttleAllow (hist : List Int) (num_requests : Nat) (now : Int) : Bool × List Int :=
  let recents := hist.filter (fun t => decide (now - 3600 < t))
  if recents.length < num_requests then (true, now :: recents) else (false, hist)

/-- views.py lines 25-34 with the DRF dispatch: FeedbackRateThrottle (scope
feedback, 5/hour, anonymous only — authenticated requests get no cache key)
then AuthenticatedFeedbackRateThrottle (scope feedback_auth, 10/hour, keyed by
user identity or by IP for anonymous users).  DRF evaluates every throttle and
the request passes only when all of them allow it. -/
def checkThrottles (ts : ThrottleState) (ip : Str) (user : Option Str) (now : Int) :
    Bool × ThrottleState :=
  let anonStep : Bool × ThrottleState :=
    match user with
    | some _ => (true, ts)
    | none =>
      let r := throttleAllow (ts.anonHist ip) 5 now
      (r.1, { ts with anonHist := fun k => if k = ip then r.2 else ts.anonHist k })
  let ts1 := anonStep.2
  let key := match user with
    | some u => u
    | none => ip
  let r2 := throttleAllow (ts1.userHist key) 10 now
  let ts2 := { ts1 with userHist := fun k => if k = key then r2.2 else ts1.userHist k }
  (anonStep.1 && r2.1, ts2)

/-- An inbound create request: payload, resolved client IP, authenticated
identity (none for anonymous), user agent. -/
structure Request where
  data : RawInput
  ip : Str
  user : Option Str
  user_agent : Str

/-- The shared mutable state: the Feedback table, the throttle caches and the
next generated primary key. -/
structure Sys where
  store : List Record
  throttle : ThrottleState
  nextId : Nat

/-- The observable outcome of a create request.  tooMany is the 429 response
produced by handle_exception, forbidden the 403 blocked-IP response, fieldErrs
the 400 response carrying the per-field error report, dupErr the 400 response
carrying the non-field duplicate error. -/
inductive CreateResult where
  | tooMany
  | forbidden
  | fieldErrs (errs : List String)
  | dupErr
  | success (rid : Nat)
deriving DecidableEq, Repr

/-- The row written on a successful create: validated attrs plus status new,
the client IP, the user agent and the server-assigned creation time. -/
def newRecord (v : Validated) (ip ua : Str) (now : Int) (rid : Nat) : Record :=
  { actor := v.actor, theme := v.theme, email := v.email,
    name_company := v.name_company, name_person := v.name_person,
    message := v.message, status := "new".data, ip_address := ip,
    user_agent := ua, created_at := now, rid := rid }

/-- views.py FeedbackCreateView, in DRF dispatch order: check_throttles runs
before the create method, so a throttled request gets the 429 response from
handle_exception; then the blocked-IP check of create (views.py lines 66-72);
then serializer validation (field errors aggregated, duplicate check only when
every field passed); then serializer.save, which runs Feedback.save and its
sanitization. -/
def createView (blocked_ips : List Str) (s : Sys) (req : Request) (now : Int) :
    CreateResult × Sys :=
  let chk := checkThrottles s.throttle req.ip req.user now
  let s1 : Sys := { s with throttle := chk.2 }
  if chk.1 then
    if req.ip ∈ blocked_ips then (.forbidden, s1)
    else
      match fieldValidate req.data with
      | none => (.fieldErrs (fieldErrorKeys req.data), s1)
      | some v =>
        if dupRecent s1.store v.email v.theme now then (.dupErr, s1)
        else
          let row := modelSaveClean (newRecord v req.ip req.user_agent now s1.nextId)
          (.success s1.nextId, { s1 with store := s1.store ++ [row], nextId := s1.nextId + 1 })
  else (.tooMany, s1)

/-- models.py STATUS_CHOICES keys. -/
def valid_statuses : List Str := ["new".data, "completed".data, "rejected".data]

inductive UpdateResult where
  | ok
  | badStatus
deriving DecidableEq, Repr

/-- views.py lines 166-188: FeedbackDetailView.update.  The payload is
filtered to the status key; an unrecognized status value is a 400 error.
Otherwise the view hands the filtered data to FeedbackListSerializer, whose
declared fields are all read-only and do not include status, so no attribute
is written and saving only re-runs the Feedback.save sanitization on the
stored values. -/
def updateView (inst : Record) (payload : List (String × Str)) : UpdateResult × Record :=
  let update_data := payload.filter (fun kv => kv.1 == "status")
  match update_data.find? (fun kv => kv.1 == "status") with
  | some kv =>
    if kv.2 ∈ valid_statuses then (.ok, modelSaveClean inst)
    else (.badStatus, inst)
  | none => (.ok, modelSaveClean inst)

/-! ## Concrete fixtures used by the witnesses and counterexamples -/

def emptyThrottle : ThrottleState where
  anonHist := fun _ => []
  userHist := fun _ => []

/-- Five anonymous requests recorded inside the trailing hour before 10000. -/
def saturatedThrottle : ThrottleState where
  anonHist := fun _ => [9000, 8000, 7000, 6500, 6450]
  userHist := fun _ => []

/-- The worked example of spec section 8. -/
def baseInput : RawInput where
  actor := some ("author".data)
  theme := some ("Partnership inquiry".data)
  email := some ("JOHN@EXAMPLE.COM ".data)
  name_company := none
  name_person := some ("John Smith".data)
  message := some ("Hello, I would like to collaborate.".data)

def baseRequest : Request where
  data := baseInput
  ip := "203.0.113.5".data
  user := none
  user_agent := "agent".data

def baseSys : Sys where
  store := []
  throttle := emptyThrottle
  nextId := 1

/-- A stored row with markup-free fields and status new. -/
def exampleRecord : Record where
  actor := "author".data
  theme := "Partnership inquiry".data
  email := "john@example.com".data
  name_company := none
  name_person := "John Smith".data
  message := "Hello, I would like to collaborate.".data
  status := "new".data
  ip_address := "203.0.113.5".data
  user_agent := "agent".data
  created_at := 9000
  rid := 1

/-- A row whose theme carries markup from the bleach default allow-list. -/
def markupRecord : Record :=
  { exampleRecord with theme := "<b>Hello</b> world".data }

/-- A system whose store already holds exampleRecord. -/
def storeSys : Sys where
  store := [exampleRecord]
  throttle := emptyThrottle
  nextId := 2

/-- A message smuggling an 11+ character run inside stripped markup. -/
def runInMarkup : Str := "<div aaaaaaaaaaaa>hello world text</div>".data

/-- A message with an interior run of 11 newlines: the Python regex dot never
captures a newline, so the code accepts it. -/
def newlineRunMessage : Str := "hello\n\n\n\n\n\n\n\n\n\n\nworld here".data

def saturatedSys : Sys where
  store := []
  throttle := saturatedThrottle
  nextId := 1

/-- A throttle state saturated only at the given anonymous key. -/
def saturatedAt (ip : Str) : ThrottleState where
  anonHist := fun k => if k = ip then [9000, 8000, 7000, 6500, 6450] else []
  userHist := fun _ => []

def authRequest : Request :=
  { baseRequest with user := some ("7".data) }

def otherRequest : Request :=
  { baseRequest with ip := "198.51.100.7".data }

/-- The validated attrs of baseInput. -/
def baseValidated : Validated where
  actor := "author".data
  theme := "Partnership inquiry".data
  email := "john@example.com".data
  name_company := none
  name_person := "John Smith".data
  message := "Hello, I would like to collaborate.".data

/-- The same stored row, but created well over an hour ago. -/
def oldRecord : Record :=
  { exampleRecord with created_at := 3000 }

def oldStoreSys : Sys where
  store := [oldRecord]
  throttle := emptyThrottle
  nextId := 2

/-- An input failing three field rules at once: theme too short, email from a
disposable domain, message carrying a spam phrase. -/
def badInput : RawInput :=
  { baseInput with
    theme := some ("hi".data)
    email := some ("user@mailinator.com".data)
    message := some ("win now friends, hello there everyone".data) }

def badRequest : Request :=
  { baseRequest with data := badInput }

/-- A theme equal to the stored one up to stripped markup, but whose raw
trimmed form is longer than 200 characters. -/
def markupTheme : Str :=
  (String.join (List.replicate 23 "<em></em>")).data ++ "Partnership inquiry".data

def overlongRequest : Request :=
  { baseRequest with data :=
    { baseInput with
      theme := some markupTheme
      email := some ("JOHN@example.com ".data) } }

/-- A resubmission differing from baseInput only by email case and by theme
markup and whitespace, within the raw length window. -/
def dupRequest : Request :=
  { baseRequest with data :=
    { baseInput with
      theme := some ("<em>Partnership inquiry</em> ".data)
      email := some ("JOHN@example.com ".data) } }

/-! ## Lemmas about the sanitizer -/

theorem splitAtGt_eq {s i a : Str} (h : splitAtGt s = some (i, a)) :
    s = i ++ '>' :: a := by
  induction s generalizing i a with
  | nil => simp [splitAtGt] at h
  | cons c rest ih =>
    by_cases hc : c = '>'
    · subst hc
      simp [splitAtGt] at h
      obtain ⟨hi, ha⟩ := h
      subst hi; subst ha; rfl
    · rw [splitAtGt, if_neg hc] at h
      cases hr : splitAtGt rest with
      | none => rw [hr] at h; exact absurd h (by simp)
      | some p =>
        obtain ⟨i0, a0⟩ := p
        rw [hr] at h
        simp at h
        obtain ⟨hi, ha⟩ := h
        subst hi; subst ha
        simpa using congrArg (c :: ·) (ih hr)

theorem splitAtGt_no_gt {s i a : Str} (h : splitAtGt s = some (i, a)) :
    '>' ∉ i := by
  induction s generalizing i a with
  | nil => simp [splitAtGt] at h
  | cons c rest ih =>
    by_cases hc : c = '>'
    · subst hc
      simp [splitAtGt] at h
      obtain ⟨hi, _⟩ := h
      subst hi; simp
    · rw [splitAtGt, if_neg hc] at h
      cases hr : splitAtGt rest with
      | none => rw [hr] at h; exact absurd h (by simp)
      | some p =>
        obtain ⟨i0, a0⟩ := p
        rw [hr] at h
        simp at h
        obtain ⟨hi, _⟩ := h
        subst hi
        intro hm
        rcases List.mem_cons.mp hm with h1 | h2
        · exact hc h1.symm
        · exact ih hr h2

theorem splitAtGt_append {i : Str} (hni : '>' ∉ i) (a : Str) :
    splitAtGt (i ++ '>' :: a) = some (i, a) := by
  induction i with
  | nil => simp [splitAtGt]
  | cons c rest ih =>
    have hc : c ≠ '>' := fun h => hni (h ▸ List.mem_cons_self c rest)
    have hrest : '>' ∉ rest := fun h => hni (List.mem_cons_of_mem c h)
    rw [List.cons_append, splitAtGt, if_neg hc, ih hrest]

theorem sanitizeAux_some (A : List Str) :
    ∀ (s acc : Str), sanitizeAux A s (some acc) =
      match splitAtGt s with
      | none => []
      | some (i, a) =>
        (if tagName (acc ++ i) ∈ A then '<' :: ((acc ++ i) ++ ['>']) else []) ++
          sanitizeAux A a none := by
  intro s
  induction s with
  | nil => intro acc; rfl
  | cons c rest ih =>
    intro acc
    by_cases hc : c = '>'
    · subst hc
      show (if tagName acc ∈ A then '<' :: (acc ++ ['>']) else []) ++ sanitizeAux A rest none = _
      simp [splitAtGt]
    · show sanitizeAux A (c :: rest) (some acc) = _
      rw [sanitizeAux, if_neg hc, ih (acc ++ [c])]
      rw [splitAtGt, if_neg hc]
      cases hr : splitAtGt rest with
      | none => simp
      | some p =>
        obtain ⟨i0, a0⟩ := p
        simp [List.append_assoc]

theorem sanitize_cons_text {c : Char} (hc : c ≠ '<') (A : List Str) (s : Str) :
    sanitize A (c :: s) = c :: sanitize A s := by
  rw [sanitize, sanitizeAux, if_neg hc]; rfl

theorem sanitize_cons_lt (A : List Str) (s : Str) :
    sanitize A ('<' :: s) =
      match splitAtGt s with
      | none => []
      | some (i, a) =>
        (if tagName i ∈ A then '<' :: (i ++ ['>']) else []) ++ sanitize A a := by
  show sanitizeAux A ('<' :: s) none = _
  rw [sanitizeAux, if_pos rfl, sanitizeAux_some]
  cases hr : splitAtGt s with
  | none => rfl
  | some p => obtain ⟨i0, a0⟩ := p; simp [sanitize]

theorem splitAtGt_tail_len {s i a : Str} (h : splitAtGt s = some (i, a)) :
    a.length < s.length := by
  have := splitAtGt_eq h
  subst this
  simp
  omega

/-- The sanitizer is idempotent (spec section 8, claim C9). -/
theorem sanitize_idem_aux (A : List Str) :
    ∀ n, ∀ s : Str, s.length ≤ n → sanitize A (sanitize A s) = sanitize A s := by
  intro n
  induction n with
  | zero =>
    intro s hs
    have : s = [] := List.length_eq_zero.mp (Nat.le_zero.mp hs)
    subst this; rfl
  | succ n ih =>
    intro s hs
    cases s with
    | nil => rfl
    | cons c rest =>
      have hrest : rest.length ≤ n := by simpa using hs
      by_cases hc : c = '<'
      · subst hc
        rw [sanitize_cons_lt]
        cases hr : splitAtGt rest with
        | none => rfl
        | some p =>
          obtain ⟨i, a⟩ := p
          have hlen : a.length ≤ n :=
            Nat.le_trans (Nat.le_of_lt_succ (Nat.lt_of_lt_of_le (splitAtGt_tail_len hr)
              (Nat.le_succ_of_le hrest))) (Nat.le_refl n)
          by_cases ht : tagName i ∈ A
          · simp only [ht, if_pos]
            have hshape : '<' :: (i ++ ['>']) ++ sanitize A a =
                '<' :: (i ++ '>' :: sanitize A a) := by simp
            rw [hshape, sanitize_cons_lt, splitAtGt_append (splitAtGt_no_gt hr)]
            simp only [ht, if_pos]
            rw [ih a hlen]
            simp
          · simp only [ht, if_neg, List.nil_append]
            exact ih a hlen
      · rw [sanitize_cons_text hc, sanitize_cons_text hc, ih rest hrest]

theorem sanitize_idem (A : List Str) (s : Str) :
    sanitize A (sanitize A s) = sanitize A s :=
  sanitize_idem_aux A s.length s (Nat.le_refl _)

/-- Strict sanitization leaves no left angle bracket in the output. -/
theorem strip_tags_no_lt_aux :
    ∀ n, ∀ s : Str, s.length ≤ n → '<' ∉ sanitize [] s := by
  intro n
  induction n with
  | zero =>
    intro s hs
    have : s = [] := List.length_eq_zero.mp (Nat.le_zero.mp hs)
    subst this; simp [sanitize, sanitizeAux]
  | succ n ih =>
    intro s hs
    cases s with
    | nil => simp [sanitize, sanitizeAux]
    | cons c rest =>
      have hrest : rest.length ≤ n := by simpa using hs
      by_cases hc : c = '<'
      · subst hc
        rw [sanitize_cons_lt]
        cases hr : splitAtGt rest with
        | none => simp
        | some p =>
          obtain ⟨i, a⟩ := p
          have hlen : a.length ≤ n :=
            Nat.le_of_lt_succ (Nat.lt_of_lt_of_le (splitAtGt_tail_len hr)
              (Nat.le_succ_of_le hrest))
          simp only [List.mem_nil_iff, if_false, List.nil_append]
          exact ih a hlen
      · rw [sanitize_cons_text hc]
        intro hm
        rcases List.mem_cons.mp hm with h1 | h2
        · exact hc h1.symm
        · exact ih rest hrest h2

theorem strip_tags_no_lt (s : Str) : '<' ∉ strip_tags s :=
  strip_tags_no_lt_aux s.length s (Nat.le_refl _)

/-- A string without a left angle bracket passes through unchanged. -/
theorem sanitize_of_no_lt {s : Str} (h : '<' ∉ s) (A : List Str) :
    sanitize A s = s := by
  induction s with
  | nil => rfl
  | cons c rest ih =>
    have hc : c ≠ '<' := fun he => h (he ▸ List.mem_cons_self c rest)
    have hrest : '<' ∉ rest := fun hm => h (List.mem_cons_of_mem c hm)
    rw [sanitize_cons_text hc, ih hrest]

/-- Sanitization never lengthens its input. -/
theorem sanitize_length_le_aux (A : List Str) :
    ∀ n, ∀ s : Str, s.length ≤ n → (sanitize A s).length ≤ s.length := by
  intro n
  induction n with
  | zero =>
    intro s hs
    have : s = [] := List.length_eq_zero.mp (Nat.le_zero.mp hs)
    subst this; simp [sanitize, sanitizeAux]
  | succ n ih =>
    intro s hs
    cases s with
    | nil => simp [sanitize, sanitizeAux]
    | cons c rest =>
      have hrest : rest.length ≤ n := by simpa using hs
      by_cases hc : c = '<'
      · subst hc
        rw [sanitize_cons_lt]
        cases hr : splitAtGt rest with
        | none => simp
        | some p =>
          obtain ⟨i, a⟩ := p
          have hlen : a.length ≤ n :=
            Nat.le_of_lt_succ (Nat.lt_of_lt_of_le (splitAtGt_tail_len hr)
              (Nat.le_succ_of_le hrest))
          have hsz := splitAtGt_eq hr
          have hal := ih a hlen
          by_cases ht : tagName i ∈ A
          · simp only [ht, if_pos]
            subst hsz
            simp
            omega
          · simp only [ht, if_neg, List.nil_append]
            subst hsz
            simp
            omega
      · rw [sanitize_cons_text hc]
        simpa using ih rest hrest

theorem sanitize_length_le (A : List Str) (s : Str) :
    (sanitize A s).length ≤ s.length :=
  sanitize_length_le_aux A s.length s (Nat.le_refl _)

/-! ## Lemmas about trimming and lowercasing -/

theorem char_le_iff_toNat {c d : Char} : c ≤ d ↔ c.toNat ≤ d.toNat := by
  simp [Char.le_def, UInt32.le_def, BitVec.le_def, Char.toNat, UInt32.toNat]

theorem char_eq_of_toNat {c d : Char} (h : c.toNat = d.toNat) : c = d := by
  apply Char.eq_of_val_eq
  apply UInt32.eq_of_toBitVec_eq
  apply BitVec.eq_of_toNat_eq
  simpa [Char.toNat, UInt32.toNat] using h

theorem lowChar_toNat_of_upper {c : Char} (h : 'A' ≤ c ∧ c ≤ 'Z') :
    (lowChar c).toNat = c.toNat + 32 := by
  have h2 : c.toNat ≤ 90 := char_le_iff_toNat.mp h.2
  have hv : (c.toNat + 32).isValidChar := Or.inl (by omega)
  rw [lowChar, if_pos h]
  show (Char.ofNat (c.toNat + 32)).toNat = c.toNat + 32
  rw [Char.ofNat, dif_pos hv]
  simp [Char.toNat, Char.ofNatAux, UInt32.toNat, BitVec.toNat_ofNatLt]

theorem lowChar_eq_self {c : Char} (h : ¬('A' ≤ c ∧ c ≤ 'Z')) : lowChar c = c := by
  rw [lowChar, if_neg h]

theorem not_wsp_of_toNat_ge {c : Char} (h : 33 ≤ c.toNat) : wsp c = false := by
  have hne : ∀ d : Char, d.toNat < 33 → c ≠ d := by
    intro d hd he
    rw [he] at h
    omega
  simp only [wsp, Char.isWhitespace, Bool.or_eq_false_iff, decide_eq_false_iff_not]
  exact ⟨⟨⟨hne ' ' (by decide), hne '\t' (by decide)⟩, hne '\x0d' (by decide)⟩,
    hne '\n' (by decide)⟩

theorem wsp_lowChar (c : Char) : wsp (lowChar c) = wsp c := by
  by_cases h : 'A' ≤ c ∧ c ≤ 'Z'
  · have h1 : 65 ≤ c.toNat := char_le_iff_toNat.mp h.1
    have h2 : (lowChar c).toNat = c.toNat + 32 := lowChar_toNat_of_upper h
    rw [not_wsp_of_toNat_ge (by omega), not_wsp_of_toNat_ge (by omega)]
  · rw [lowChar_eq_self h]

theorem lowChar_eq_iff {c d : Char} (hdUp : ¬(65 ≤ d.toNat ∧ d.toNat ≤ 90))
    (hdLow : ¬(97 ≤ d.toNat ∧ d.toNat ≤ 122)) : lowChar c = d ↔ c = d := by
  constructor
  · intro h
    by_cases hu : 'A' ≤ c ∧ c ≤ 'Z'
    · exfalso
      have h1 : 65 ≤ c.toNat := char_le_iff_toNat.mp hu.1
      have h2 : c.toNat ≤ 90 := char_le_iff_toNat.mp hu.2
      have h3 : (lowChar c).toNat = c.toNat + 32 := lowChar_toNat_of_upper hu
      rw [h] at h3
      exact hdLow ⟨by omega, by omega⟩
    · rwa [lowChar_eq_self hu] at h
  · intro h
    subst h
    apply lowChar_eq_self
    intro hu
    exact hdUp ⟨char_le_iff_toNat.mp hu.1, char_le_iff_toNat.mp hu.2⟩

theorem dropWhile_idem {α : Type} (p : α → Bool) (l : List α) :
    (l.dropWhile p).dropWhile p = l.dropWhile p := by
  induction l with
  | nil => rfl
  | cons c rest ih =>
    by_cases hc : p c
    · rw [List.dropWhile_cons, if_pos hc, ih]
    · rw [List.dropWhile_cons, if_neg hc, List.dropWhile_cons, if_neg hc]

theorem dropWhile_head_false {α : Type} {p : α → Bool} {l : List α} {b : α} {bs : List α}
    (h : l.dropWhile p = b :: bs) : p b = false := by
  induction l with
  | nil => simp [List.dropWhile] at h
  | cons c rest ih =>
    by_cases hc : p c
    · rw [List.dropWhile_cons, if_pos hc] at h
      exact ih h
    · rw [List.dropWhile_cons, if_neg hc] at h
      cases h
      exact Bool.of_not_eq_true hc

theorem exists_dropWhile_decomp {α : Type} (p : α → Bool) (l : List α) :
    ∃ t, l = t ++ l.dropWhile p := by
  induction l with
  | nil => exact ⟨[], rfl⟩
  | cons c rest ih =>
    by_cases hc : p c
    · obtain ⟨t, ht⟩ := ih
      refine ⟨c :: t, ?_⟩
      rw [List.dropWhile_cons, if_pos hc]
      simpa using ht
    · exact ⟨[], by rw [List.dropWhile_cons, if_neg hc]; rfl⟩

theorem trimL_idem (l : Str) : trimL (trimL l) = trimL l := by
  set A := l.dropWhile wsp with hA
  set C := A.reverse.dropWhile wsp with hC
  have hB : trimL l = C.reverse := rfl
  have h1 : C.reverse.dropWhile wsp = C.reverse := by
    cases he : C.reverse with
    | nil => simp
    | cons b bs =>
      have hwb : wsp b = false := by
        obtain ⟨t, ht⟩ := exists_dropWhile_decomp wsp A.reverse
        have hA2 : A = C.reverse ++ t.reverse := by
          have := congrArg List.reverse ht
          simpa [List.reverse_append, hC] using this
        rw [he] at hA2
        exact @dropWhile_head_false Char wsp l b (bs ++ t.reverse)
          (by rw [← hA, hA2]; simp)
      rw [List.dropWhile_cons, if_neg (by simp [hwb])]
  have h2 : C.dropWhile wsp = C := by rw [hC]; exact dropWhile_idem wsp A.reverse
  rw [hB, trimL, h1, List.reverse_reverse, h2]

theorem wsp_comp_lowChar : (wsp ∘ lowChar) = wsp := funext wsp_lowChar

theorem dropWhile_wsp_lowerStr (l : Str) :
    (lowerStr l).dropWhile wsp = lowerStr (l.dropWhile wsp) := by
  rw [lowerStr, List.dropWhile_map, wsp_comp_lowChar, lowerStr]

theorem reverse_lowerStr (l : Str) : (lowerStr l).reverse = lowerStr l.reverse :=
  (List.map_reverse lowChar l).symm

theorem trimL_lowerStr (l : Str) : trimL (lowerStr l) = lowerStr (trimL l) := by
  rw [trimL, dropWhile_wsp_lowerStr, reverse_lowerStr, dropWhile_wsp_lowerStr,
    reverse_lowerStr, trimL]

/-- Lowercasing a trimmed string needs no further trimming. -/
theorem trimL_lowerStr_trimL (e : Str) :
    trimL (lowerStr (trimL e)) = lowerStr (trimL e) := by
  rw [trimL_lowerStr, trimL_idem]

theorem mem_of_mem_dropWhile {α : Type} {p : α → Bool} {a : α} {l : List α}
    (h : a ∈ l.dropWhile p) : a ∈ l :=
  (List.dropWhile_sublist p).subset h

theorem mem_of_mem_trimL {a : Char} {l : Str} (h : a ∈ trimL l) : a ∈ l := by
  rw [trimL] at h
  exact mem_of_mem_dropWhile
    (List.mem_reverse.mp (mem_of_mem_dropWhile (List.mem_reverse.mp h)))

/-! ## Lemmas about splitting and the email validator -/

theorem splitOnChar_ne_nil (sep : Char) (l : Str) : splitOnChar sep l ≠ [] := by
  induction l with
  | nil => simp [splitOnChar]
  | cons c rest ih =>
    rw [splitOnChar]
    cases hr : splitOnChar sep rest with
    | nil => exact absurd hr ih
    | cons h t => by_cases hc : c = sep <;> simp [hc]

theorem splitOnChar_lowerStr (sep : Char) (hsep1 : lowChar sep = sep)
    (hsep2 : ∀ c, lowChar c = sep → c = sep) (l : Str) :
    splitOnChar sep (lowerStr l) = (splitOnChar sep l).map lowerStr := by
  induction l with
  | nil => rfl
  | cons c rest ih =>
    show splitOnChar sep (lowChar c :: lowerStr rest) = _
    rw [splitOnChar, ih, splitOnChar]
    cases hr : splitOnChar sep rest with
    | nil => exact absurd hr (splitOnChar_ne_nil sep rest)
    | cons h t =>
      simp only [List.map_cons]
      by_cases hc : c = sep
      · rw [if_pos (by rw [hc, hsep1]), if_pos hc]
        simp [lowerStr]
      · rw [if_neg (fun hl => hc (hsep2 c hl)), if_neg hc]
        simp [lowerStr]

theorem lowChar_at_iff (c : Char) : lowChar c = '@' ↔ c = '@' :=
  lowChar_eq_iff (by decide) (by decide)

theorem lowChar_dot_iff (c : Char) : lowChar c = '.' ↔ c = '.' :=
  lowChar_eq_iff (by decide) (by decide)

theorem mem_at_lowerStr (v : Str) : '@' ∈ lowerStr v ↔ '@' ∈ v := by
  rw [lowerStr]
  constructor
  · intro h
    obtain ⟨c, hc, he⟩ := List.mem_map.mp h
    rwa [(lowChar_at_iff c).mp he] at hc
  · intro h
    exact List.mem_map.mpr ⟨'@', h, by decide⟩

theorem mem_dot_lowerStr (v : Str) : '.' ∈ lowerStr v ↔ '.' ∈ v := by
  rw [lowerStr]
  constructor
  · intro h
    obtain ⟨c, hc, he⟩ := List.mem_map.mp h
    rwa [(lowChar_dot_iff c).mp he] at hc
  · intro h
    exact List.mem_map.mpr ⟨'.', h, by decide⟩

theorem optmap_lowChar_eq_dot (o : Option Char) :
    o.map lowChar = some '.' ↔ o = some '.' := by
  cases o with
  | none => simp
  | some c => simpa using lowChar_dot_iff c

/-- The syntactic email check only looks at case-insensitive structure. -/
theorem pyEmailValid_lowerStr (v : Str) :
    pyEmailValid (lowerStr v) = pyEmailValid v := by
  rw [pyEmailValid, pyEmailValid,
    splitOnChar_lowerStr '@' (by decide) (fun c => (lowChar_at_iff c).mp)]
  cases hs : splitOnChar '@' v with
  | nil => rfl
  | cons lp t =>
    cases t with
    | nil => rfl
    | cons dom t2 =>
      cases t2 with
      | cons x t3 => rfl
      | nil =>
        simp only [List.map_cons, List.map_nil]
        have h1 : (decide (lowerStr lp ≠ [])) = decide (lp ≠ []) := by
          apply decide_eq_decide.mpr
          apply not_congr
          simp [lowerStr]
        have h2 : (decide (lowerStr dom ≠ [])) = decide (dom ≠ []) := by
          apply decide_eq_decide.mpr
          apply not_congr
          simp [lowerStr]
        have h3 : (lowerStr v).all (fun c => !c.isWhitespace) =
            v.all (fun c => !c.isWhitespace) := by
          rw [lowerStr, List.all_map]
          congr 1
          funext c
          show (!(lowChar c).isWhitespace) = (!c.isWhitespace)
          have hw := wsp_lowChar c
          simp only [wsp] at hw
          rw [hw]
        have h4 : (decide ('.' ∈ lowerStr dom)) = decide ('.' ∈ dom) :=
          decide_eq_decide.mpr (mem_dot_lowerStr dom)
        have h5 : (decide ((lowerStr dom).head? ≠ some '.')) =
            decide (dom.head? ≠ some '.') := by
          apply decide_eq_decide.mpr
          apply not_congr
          rw [lowerStr, List.head?_map]
          exact optmap_lowChar_eq_dot dom.head?
        have h6 : (decide ((lowerStr dom).getLast? ≠ some '.')) =
            decide (dom.getLast? ≠ some '.') := by
          apply decide_eq_decide.mpr
          apply not_congr
          rw [lowerStr, List.getLast?_map]
          exact optmap_lowChar_eq_dot dom.getLast?
        rw [h1, h2, h3, h4, h5, h6]

theorem mem_of_splitOnChar_two {sep : Char} {l lp dom : Str}
    (h : splitOnChar sep l = [lp, dom]) : sep ∈ l := by
  induction l generalizing lp with
  | nil => simp [splitOnChar] at h
  | cons c rest ih =>
    rw [splitOnChar] at h
    cases hr : splitOnChar sep rest with
    | nil => exact absurd hr (splitOnChar_ne_nil sep rest)
    | cons h0 t0 =>
      rw [hr] at h
      by_cases hc : c = sep
      · exact hc ▸ List.mem_cons_self c rest
      · simp [hc] at h
        obtain ⟨h2, h3⟩ := h
        subst h3
        exact List.mem_cons_of_mem c (ih hr)

theorem lowerStr_eq_nil_iff (l : Str) : lowerStr l = [] ↔ l = [] := by
  simp [lowerStr]

/-- The domain computed by validate_email depends only on the lowercased
input. -/
theorem domain_lowerStr (t : Str) :
    lowerStr ((splitOnChar '@' t).getD 1 []) =
      (splitOnChar '@' (lowerStr t)).getD 1 [] := by
  rw [splitOnChar_lowerStr '@' (by decide) (fun c => (lowChar_at_iff c).mp)]
  have hgd := @List.getD_map Str Str (splitOnChar '@' t) [] 1 lowerStr
  exact hgd.symm

/-- validate_email is determined by the lowercased input string. -/
theorem validate_email_norm {t1 t2 : Str} (hn : lowerStr t1 = lowerStr t2) :
    validate_email t1 = validate_email t2 := by
  have hnil : (t1 = []) ↔ (t2 = []) := by
    rw [← lowerStr_eq_nil_iff t1, hn, lowerStr_eq_nil_iff]
  have hat : ('@' ∈ t1) ↔ ('@' ∈ t2) := by
    rw [← mem_at_lowerStr t1, hn, mem_at_lowerStr]
  have hdom : lowerStr ((splitOnChar '@' t1).getD 1 []) =
      lowerStr ((splitOnChar '@' t2).getD 1 []) := by
    rw [domain_lowerStr, domain_lowerStr, hn]
  have hres : trimL (lowerStr t1) = trimL (lowerStr t2) := by rw [hn]
  by_cases h : t1 = []
  · rw [validate_email, validate_email, if_pos h, if_pos (hnil.mp h)]
  · have h2 : ¬ t2 = [] := fun hh => h (hnil.mpr hh)
    rw [validate_email, validate_email, if_neg h, if_neg h2]
    show (if (if '@' ∈ t1 then lowerStr ((splitOnChar '@' t1).getD 1 []) else [])
            ∈ suspicious_domains
          then none else some (trimL (lowerStr t1))) =
         (if (if '@' ∈ t2 then lowerStr ((splitOnChar '@' t2).getD 1 []) else [])
            ∈ suspicious_domains
          then none else some (trimL (lowerStr t2)))
    by_cases ha : '@' ∈ t1
    · rw [if_pos ha, if_pos (hat.mp ha), hdom, hres]
    · rw [if_neg ha, if_neg (fun hh => ha (hat.mpr hh)), hres]

/-- runEmail is determined by the lowercased trimmed raw value. -/
theorem runEmail_norm_eq {e1 e2 : Str}
    (hn : lowerStr (trimL e1) = lowerStr (trimL e2)) :
    runEmail (some e1) = runEmail (some e2) := by
  have hnil : (trimL e1 = []) ↔ (trimL e2 = []) := by
    rw [← lowerStr_eq_nil_iff (trimL e1), hn, lowerStr_eq_nil_iff]
  have hv : pyEmailValid (trimL e1) = pyEmailValid (trimL e2) := by
    rw [← pyEmailValid_lowerStr (trimL e1), hn, pyEmailValid_lowerStr]
  show (if trimL e1 = [] then none
        else if pyEmailValid (trimL e1) = true then validate_email (trimL e1) else none) =
       (if trimL e2 = [] then none
        else if pyEmailValid (trimL e2) = true then validate_email (trimL e2) else none)
  by_cases h1 : trimL e1 = []
  · rw [if_pos h1, if_pos (hnil.mp h1)]
  · have h2 : ¬ trimL e2 = [] := fun hh => h1 (hnil.mpr hh)
    rw [if_neg h1, if_neg h2, hv]
    by_cases hval : pyEmailValid (trimL e2) = true
    · rw [if_pos hval, if_pos hval]
      exact validate_email_norm hn
    · rw [if_neg hval, if_neg hval]

/-! ## Inversion lemmas for the field validators -/

theorem trimL_length_le (l : Str) : (trimL l).length ≤ l.length := by
  rw [trimL]
  simp only [List.length_reverse]
  calc ((l.dropWhile wsp).reverse.dropWhile wsp).length
      ≤ (l.dropWhile wsp).reverse.length := (List.dropWhile_sublist wsp).length_le
    _ = (l.dropWhile wsp).length := by simp
    _ ≤ l.length := (List.dropWhile_sublist wsp).length_le

theorem validate_theme_some_inv {value v : Str} (h : validate_theme value = some v) :
    trimL value ≠ [] ∧ v = trimL (strip_tags value) ∧ 5 ≤ v.length ∧
      v.length ≤ 200 ∧ containsSpamWord v = false := by
  simp only [validate_theme] at h
  by_cases h0 : trimL value = []
  · rw [if_pos h0] at h; cases h
  · rw [if_neg h0] at h
    by_cases hm1 : (trimL (strip_tags value)).length < 5
    · rw [if_pos hm1] at h; cases h
    · rw [if_neg hm1] at h
      by_cases hm2 : 200 < (trimL (strip_tags value)).length
      · rw [if_pos hm2] at h; cases h
      · rw [if_neg hm2] at h
        by_cases hm3 : containsSpamWord (trimL (strip_tags value)) = true
        · rw [if_pos hm3] at h; cases h
        · rw [if_neg hm3] at h
          injection h with h4
          subst h4
          exact ⟨h0, rfl, by omega, by omega, Bool.not_eq_true _ |>.mp hm3⟩

theorem validate_theme_some_intro {value : Str}
    (h0 : trimL value ≠ []) (h1 : 5 ≤ (trimL (strip_tags value)).length)
    (h2 : (trimL (strip_tags value)).length ≤ 200)
    (h3 : containsSpamWord (trimL (strip_tags value)) = false) :
    validate_theme value = some (trimL (strip_tags value)) := by
  simp only [validate_theme]
  rw [if_neg h0, if_neg (by omega), if_neg (by omega), if_neg (by simp [h3])]

theorem runTheme_some_inv {o : Option Str} {v : Str} (h : runTheme o = some v) :
    ∃ raw, o = some raw ∧ trimL raw ≠ [] ∧ 5 ≤ (trimL raw).length ∧
      (trimL raw).length ≤ 200 ∧ validate_theme (trimL raw) = some v := by
  cases o with
  | none => cases h
  | some raw =>
    refine ⟨raw, rfl, ?_⟩
    simp only [runTheme] at h
    by_cases h0 : trimL raw = []
    · rw [if_pos h0] at h; cases h
    · rw [if_neg h0] at h
      by_cases hm1 : (trimL raw).length < 5
      · rw [if_pos hm1] at h; cases h
      · rw [if_neg hm1] at h
        by_cases hm2 : 200 < (trimL raw).length
        · rw [if_pos hm2] at h; cases h
        · rw [if_neg hm2] at h
          exact ⟨h0, by omega, by omega, h⟩

/-- The theme pipeline only depends on the normalized (stripped, trimmed)
value, as long as the raw value respects the length window. -/
theorem runTheme_norm {raw1 raw2 v : Str}
    (h1 : runTheme (some raw1) = some v)
    (hn : trimL (strip_tags (trimL raw1)) = trimL (strip_tags (trimL raw2)))
    (hlen : (trimL raw2).length ≤ 200) :
    runTheme (some raw2) = some v := by
  obtain ⟨raw, hraw, ht1, hl1a, hl1b, hval⟩ := runTheme_some_inv h1
  injection hraw with hraw
  subst hraw
  obtain ⟨hb1, hv1, hmin1, hmax1, hspam1⟩ := validate_theme_some_inv hval
  rw [trimL_idem] at hb1
  have hveq : v = trimL (strip_tags (trimL raw2)) := by rw [hv1, hn]
  have ht2 : trimL raw2 ≠ [] := by
    intro hz
    rw [hz] at hveq
    have : v = [] := by simpa [strip_tags, sanitize, sanitizeAux, trimL] using hveq
    rw [this] at hmin1
    simp at hmin1
  have hlen2 : 5 ≤ (trimL raw2).length := by
    have hc2 : (trimL (strip_tags (trimL raw2))).length ≤ (trimL raw2).length :=
      Nat.le_trans (trimL_length_le _)
        (Nat.le_trans (sanitize_length_le _ _) (Nat.le_refl _))
    rw [← hveq] at hc2
    omega
  simp only [runTheme]
  rw [if_neg ht2, if_neg (by omega), if_neg (by omega)]
  rw [validate_theme_some_intro (by rwa [trimL_idem]) (by rw [← hn, ← hv1]; omega)
    (by rw [← hn, ← hv1]; omega) (by rw [← hn, ← hv1]; exact hspam1), ← hveq]

theorem fieldValidate_some_inv {i : RawInput} {v : Validated}
    (h : fieldValidate i = some v) :
    runActor i.actor = some v.actor ∧ runTheme i.theme = some v.theme ∧
    runEmail i.email = some v.email ∧
    runCompany i.name_company = some v.name_company ∧
    runPerson i.name_person = some v.name_person ∧
    runMessage i.message = some v.message := by
  rcases h1 : runActor i.actor with _ | a <;>
  rcases h2 : runTheme i.theme with _ | t <;>
  rcases h3 : runEmail i.email with _ | e <;>
  rcases h4 : runCompany i.name_company with _ | c <;>
  rcases h5 : runPerson i.name_person with _ | p <;>
  rcases h6 : runMessage i.message with _ | m <;>
  simp only [fieldValidate, h1, h2, h3, h4, h5, h6] at h <;>
  first
    | exact Option.noConfusion h
    | (injection h with h7; subst h7; exact ⟨rfl, rfl, rfl, rfl, rfl, rfl⟩)

theorem fieldValidate_intro {i : RawInput} {a t e p m : Str} {c : Option Str}
    (h1 : runActor i.actor = some a) (h2 : runTheme i.theme = some t)
    (h3 : runEmail i.email = some e) (h4 : runCompany i.name_company = some c)
    (h5 : runPerson i.name_person = some p) (h6 : runMessage i.message = some m) :
    fieldValidate i = some (Validated.mk a t e c p m) := by
  simp only [fieldValidate, h1, h2, h3, h4, h5, h6]

/-- The error report keys are exactly the failing fields (claim C3). -/
theorem mem_fieldErrorKeys (i : RawInput) (f : String) :
    f ∈ fieldErrorKeys i ↔ f ∈ serializer_fields ∧ fieldFails i f = true :=
  List.mem_filter

theorem fieldErrorKeys_nil_iff (i : RawInput) :
    fieldErrorKeys i = [] ↔ fieldValidate i ≠ none := by
  rcases h1 : runActor i.actor with _ | a <;>
  rcases h2 : runTheme i.theme with _ | t <;>
  rcases h3 : runEmail i.email with _ | e <;>
  rcases h4 : runCompany i.name_company with _ | c <;>
  rcases h5 : runPerson i.name_person with _ | p <;>
  rcases h6 : runMessage i.message with _ | m <;>
  simp [fieldErrorKeys, serializer_fields, fieldFails, fieldValidate,
    h1, h2, h3, h4, h5, h6, List.filter]

/-! ## The validated values carry no markup -/

theorem runTheme_some_no_lt {o : Option Str} {v : Str} (h : runTheme o = some v) :
    '<' ∉ v := by
  obtain ⟨raw, -, -, -, -, hval⟩ := runTheme_some_inv h
  obtain ⟨-, hv, -, -, -⟩ := validate_theme_some_inv hval
  intro hm
  rw [hv] at hm
  exact strip_tags_no_lt _ (mem_of_mem_trimL hm)

theorem validate_name_person_some_inv {value v : Str}
    (h : validate_name_person value = some v) :
    v = trimL (strip_tags value) := by
  simp only [validate_name_person] at h
  by_cases h0 : trimL value = []
  · rw [if_pos h0] at h; cases h
  · rw [if_neg h0] at h
    by_cases hm1 : (trimL (strip_tags value)).length < 2
    · rw [if_pos hm1] at h; cases h
    · rw [if_neg hm1] at h
      by_cases hm2 : 100 < (trimL (strip_tags value)).length
      · rw [if_pos hm2] at h; cases h
      · rw [if_neg hm2] at h
        by_cases hm3 : (trimL (strip_tags value)).all personCharOk = true
        · rw [if_pos hm3] at h
          injection h with h4
          exact h4.symm
        · rw [if_neg hm3] at h; cases h

theorem runPerson_some_no_lt {o : Option Str} {v : Str} (h : runPerson o = some v) :
    '<' ∉ v := by
  cases o with
  | none => cases h
  | some raw =>
    simp only [runPerson] at h
    by_cases h0 : trimL raw = []
    · rw [if_pos h0] at h; cases h
    · rw [if_neg h0] at h
      by_cases hm1 : (trimL raw).length < 2
      · rw [if_pos hm1] at h; cases h
      · rw [if_neg hm1] at h
        by_cases hm2 : 100 < (trimL raw).length
        · rw [if_pos hm2] at h; cases h
        · rw [if_neg hm2] at h
          have hv := validate_name_person_some_inv h
          intro hm
          rw [hv] at hm
          exact strip_tags_no_lt _ (mem_of_mem_trimL hm)

theorem runCompany_some_no_lt {o : Option Str} {c : Str}
    (h : runCompany o = some (some c)) : '<' ∉ c := by
  cases o with
  | none => cases h
  | some raw =>
    simp only [runCompany] at h
    by_cases hm : 150 < (trimL raw).length
    · rw [if_pos hm] at h; cases h
    · rw [if_neg hm] at h
      simp only [validate_name_company] at h
      by_cases h0 : trimL raw ≠ []
      · rw [if_pos h0] at h
        by_cases hm2 : 150 < (trimL (strip_tags (trimL raw))).length
        · rw [if_pos hm2] at h; cases h
        · rw [if_neg hm2] at h
          simp at h
          intro hmem
          rw [← h] at hmem
          exact strip_tags_no_lt _ (mem_of_mem_trimL hmem)
      · rw [if_neg h0] at h
        simp at h
        rw [not_not] at h0
        rw [← h, h0]
        simp

theorem runMessage_some_shape {o : Option Str} {v : Str} (h : runMessage o = some v) :
    ∃ x, v = trimL (sanitize message_allowed_tags x) := by
  cases o with
  | none => cases h
  | some raw =>
    simp only [runMessage] at h
    by_cases h0 : trimL raw = []
    · rw [if_pos h0] at h; cases h
    · rw [if_neg h0] at h
      by_cases hm1 : (trimL raw).length < 10
      · rw [if_pos hm1] at h; cases h
      · rw [if_neg hm1] at h
        by_cases hm2 : 2000 < (trimL raw).length
        · rw [if_pos hm2] at h; cases h
        · rw [if_neg hm2] at h
          simp only [validate_message] at h
          by_cases h3 : trimL (trimL raw) = []
          · rw [if_pos h3] at h; cases h
          · rw [if_neg h3] at h
            by_cases h4 : (trimL (sanitize message_allowed_tags (trimL raw))).length < 10
            · rw [if_pos h4] at h; cases h
            · rw [if_neg h4] at h
              by_cases h5 : 2000 < (trimL (sanitize message_allowed_tags (trimL raw))).length
              · rw [if_pos h5] at h; cases h
              · rw [if_neg h5] at h
                by_cases h6 : containsSpamWord (trimL (sanitize message_allowed_tags (trimL raw))) = true
                · rw [if_pos h6] at h; cases h
                · rw [if_neg h6] at h
                  by_cases h7 : hasRunGeNoNewline 11 (trimL (sanitize message_allowed_tags (trimL raw))) = true
                  · rw [if_pos h7] at h; cases h
                  · rw [if_neg h7] at h
                    injection h with h8
                    exact ⟨trimL raw, h8.symm⟩

/-! ## Run-length lemmas -/

theorem startsWithL_replicate_le :
    ∀ (k : Nat) (t : Str), startsWithL (List.replicate k 'a') t = true →
      k ≤ runLen 'a' t := by
  intro k
  induction k with
  | zero => intro t _; exact Nat.zero_le _
  | succ n ih =>
    intro t h
    cases t with
    | nil => simp [List.replicate_succ, startsWithL] at h
    | cons c rest =>
      rw [List.replicate_succ, startsWithL] at h
      simp at h
      obtain ⟨hc, hs⟩ := h
      rw [runLen, if_pos hc.symm]
      exact Nat.succ_le_succ (ih rest hs)

theorem containsSeq_replicate_hasRun :
    ∀ s : Str, containsSeq (List.replicate 12 'a') s = true →
      hasRunGeNoNewline 11 s = true := by
  intro s
  induction s with
  | nil =>
    intro h
    simp [containsSeq, List.replicate_succ, startsWithL] at h
  | cons c rest ih =>
    intro h
    rw [containsSeq] at h
    rcases Bool.or_eq_true_iff.mp h with h1 | h2
    · have h12 := startsWithL_replicate_le 12 (c :: rest) h1
      have hca : c = 'a' := by
        by_contra hne
        rw [runLen, if_neg (fun he => hne he)] at h12
        omega
      subst hca
      rw [runLen, if_pos rfl] at h12
      rw [hasRunGeNoNewline]
      apply Bool.or_eq_true_iff.mpr
      left
      rw [Bool.and_eq_true]
      exact ⟨by decide, decide_eq_true (by omega)⟩
    · rw [hasRunGeNoNewline]
      apply Bool.or_eq_true_iff.mpr
      right
      exact ih h2

/-! ## The claims -/

/-- Claim C9: the sanitization function is idempotent in both call modes
(strict for theme, name and company; permissive for the message body), and it
is deterministic: equal inputs give equal outputs. -/
theorem c9_sanitize_idempotent :
    (∀ x : Str, sanitize [] (sanitize [] x) = sanitize [] x) ∧
    (∀ x : Str, sanitize message_allowed_tags (sanitize message_allowed_tags x) =
      sanitize message_allowed_tags x) ∧
    (∀ (A : List Str) (x y : Str), x = y → sanitize A x = sanitize A y) :=
  ⟨fun x => sanitize_idem [] x, fun x => sanitize_idem message_allowed_tags x,
   fun _ x y h => by rw [h]⟩

/-- Witness for C9 at concrete inputs. -/
theorem c9_witness :
    sanitize [] (sanitize [] ("a<b>Hello</b> x".data)) =
      sanitize [] ("a<b>Hello</b> x".data) ∧
    sanitize message_allowed_tags
        (sanitize message_allowed_tags ("<p>Hi</p><div>x</div>".data)) =
      sanitize message_allowed_tags ("<p>Hi</p><div>x</div>".data) ∧
    sanitize bleach_default_tags ("abc".data) = sanitize bleach_default_tags ("abc".data) :=
  ⟨c9_sanitize_idempotent.1 _, c9_sanitize_idempotent.2.1 _,
   c9_sanitize_idempotent.2.2 bleach_default_tags _ _ rfl⟩

/-- Claim C5 counterexample: the message runInMarkup contains the literal
substring of twelve letters a, yet the message validator accepts it, because
the run sits inside a stripped div tag and disappears during sanitization.
This refutes the unconditional reading of: a message containing
aaaaaaaaaaaa is always rejected. -/
theorem c5_counterexample :
    containsSeq ("aaaaaaaaaaaa".data) runInMarkup = true ∧
    validate_message runInMarkup = some ("hello world text".data) ∧
    runMessage (some runInMarkup) = some ("hello world text".data) := by
  refine ⟨by decide, by decide, by decide⟩

/-- Claim C5 amended: whenever the sanitized trimmed message contains a
character other than a newline repeated at least 11 times consecutively,
validate_message rejects; in particular this holds when the sanitized trimmed
message contains the substring of twelve letters a.  The newline exclusion is
forced by the source regex: the Python dot in the pattern of serializers.py
line 117 never matches a newline, and indeed a message with an interior run
of 11 newlines is accepted (third conjunct).  The unconditional
raw-containment reading is refuted by the counterexample. -/
theorem c5_amended :
    (∀ v : Str, hasRunGeNoNewline 11 (trimL (sanitize message_allowed_tags v)) = true →
      validate_message v = none) ∧
    (∀ v : Str,
      containsSeq ("aaaaaaaaaaaa".data) (trimL (sanitize message_allowed_tags v)) = true →
      validate_message v = none) ∧
    (hasRunGe 11 newlineRunMessage = true ∧
      validate_message newlineRunMessage = some newlineRunMessage) := by
  have main : ∀ v : Str,
      hasRunGeNoNewline 11 (trimL (sanitize message_allowed_tags v)) = true →
      validate_message v = none := by
    intro v h
    simp only [validate_message]
    by_cases h0 : trimL v = []
    · rw [if_pos h0]
    · rw [if_neg h0]
      by_cases h1 : (trimL (sanitize message_allowed_tags v)).length < 10
      · rw [if_pos h1]
      · rw [if_neg h1]
        by_cases h2 : 2000 < (trimL (sanitize message_allowed_tags v)).length
        · rw [if_pos h2]
        · rw [if_neg h2]
          by_cases h3 : containsSpamWord (trimL (sanitize message_allowed_tags v)) = true
          · rw [if_pos h3]
          · rw [if_neg h3, if_pos h]
  refine ⟨main, ?_, by decide, by decide⟩
  intro v h
  apply main
  apply containsSeq_replicate_hasRun
  have hrep : ("aaaaaaaaaaaa".data) = List.replicate 12 'a' := by decide
  rwa [hrep] at h

/-- Witness for the amended C5 at a concrete input. -/
theorem c5_witness :
    hasRunGeNoNewline 11 (trimL (sanitize message_allowed_tags
      ("aaaaaaaaaaaa is quite a message".data))) = true ∧
    validate_message ("aaaaaaaaaaaa is quite a message".data) = none :=
  ⟨by decide, c5_amended.1 ("aaaaaaaaaaaa is quite a message".data) (by decide)⟩

/-- Claim C2 (code bug): the admin update view validates the status value and
reports success, but the stored record keeps its old status, because the view
feeds the update into FeedbackListSerializer, whose declared fields are all
read-only and do not even include status.  An unrecognized status is rejected
and other fields never change, as claimed; the recognized-status update,
however, never reaches storage. -/
theorem c2_status_update_lost :
    ("completed".data ∈ valid_statuses) ∧
    updateView exampleRecord [("status", "completed".data)] = (.ok, exampleRecord) ∧
    exampleRecord.status = "new".data ∧
    updateView exampleRecord [("status", "bogus".data)] = (.badStatus, exampleRecord) ∧
    (∀ val : Str, updateView exampleRecord [("name_person", val)] = (.ok, exampleRecord)) := by
  refine ⟨by decide, by decide, by decide, by decide, ?_⟩
  intro val
  show updateView exampleRecord [("name_person", val)] = (.ok, exampleRecord)
  have : (([("name_person", val)] : List (String × Str)).filter
      (fun kv => kv.1 == "status")) = [] := by
    simp
  rw [updateView]
  rw [this]
  show (UpdateResult.ok, modelSaveClean exampleRecord) = (UpdateResult.ok, exampleRecord)
  have hclean : modelSaveClean exampleRecord = exampleRecord := by decide
  rw [hclean]

/-- Claim C8 counterexample: the save-path sanitization keeps the b tag in the
theme, because models.py cleans theme, name and company with the bleach
DEFAULT allow-list instead of the strict empty one.  A record written through
Feedback.save can therefore carry HTML markup into storage, contradicting the
unconditional claim that theme holds no markup on every write path. -/
theorem c8_counterexample :
    (modelSaveClean markupRecord).theme = "<b>Hello</b> world".data ∧
    '<' ∈ (modelSaveClean markupRecord).theme := by
  refine ⟨by decide, by decide⟩

/-- Claim C8 amended: every record persisted through the create pipeline is
sanitized: theme and person name carry no markup at all, the company (when
present) carries none, and the message is a fixpoint of the permissive
sanitizer, so it holds no tags outside the allow-list.  The model save path
itself, however, cleans theme, name and company against the bleach DEFAULT
allow-list rather than the strict empty one, so markup from default-allowed
tags survives a direct model save (see the counterexample). -/
theorem c8_create_path_sanitized (blocked_ips : List Str) (s : Sys) (req : Request)
    (now : Int) (rid : Nat) (s2 : Sys)
    (h : createView blocked_ips s req now = (.success rid, s2)) :
    ∃ r : Record, s2.store = s.store ++ [r] ∧ '<' ∉ r.theme ∧ '<' ∉ r.name_person ∧
      (∀ c, r.name_company = some c → '<' ∉ c) ∧
      sanitize message_allowed_tags r.message = r.message := by
  simp only [createView] at h
  by_cases hc1 : (checkThrottles s.throttle req.ip req.user now).1 = true
  · rw [if_pos hc1] at h
    by_cases hb : req.ip ∈ blocked_ips
    · rw [if_pos hb] at h
      exact absurd (congrArg Prod.fst h) (by simp)
    · rw [if_neg hb] at h
      cases hfv : fieldValidate req.data with
      | none =>
        rw [hfv] at h
        exact absurd (congrArg Prod.fst h) (by simp)
      | some v =>
        rw [hfv] at h
        simp only [] at h
        by_cases hdup : dupRecent s.store v.email v.theme now = true
        · rw [if_pos hdup] at h
          exact absurd (congrArg Prod.fst h) (by simp)
        · rw [if_neg hdup] at h
          have hs2 := (congrArg Prod.snd h).symm
          simp only [Prod.snd] at hs2
          obtain ⟨-, hth, -, hco, hpe, hme⟩ := fieldValidate_some_inv hfv
          refine ⟨modelSaveClean (newRecord v req.ip req.user_agent now s.nextId),
            ?_, ?_, ?_, ?_, ?_⟩
          · rw [hs2]
          · show '<' ∉ (if v.theme = [] then v.theme
              else sanitize bleach_default_tags v.theme)
            have hnl := runTheme_some_no_lt hth
            by_cases hz : v.theme = []
            · rw [if_pos hz, hz]; simp
            · rw [if_neg hz, sanitize_of_no_lt hnl]
              exact hnl
          · show '<' ∉ (if v.name_person = [] then v.name_person
              else sanitize bleach_default_tags v.name_person)
            have hnl := runPerson_some_no_lt hpe
            by_cases hz : v.name_person = []
            · rw [if_pos hz, hz]; simp
            · rw [if_neg hz, sanitize_of_no_lt hnl]
              exact hnl
          · intro c0 hc0
            revert hc0
            show (match v.name_company with
              | none => none
              | some c => if c = [] then some c
                else some (sanitize bleach_default_tags c)) = some c0 → '<' ∉ c0
            cases hvc : v.name_company with
            | none => intro hc0; cases hc0
            | some c =>
              rw [hvc] at hco
              simp only []
              have hnl := runCompany_some_no_lt hco
              by_cases hz : c = []
              · rw [if_pos hz]
                intro hc0
                injection hc0 with hc0
                subst hc0
                rw [hz]
                simp
              · rw [if_neg hz]
                intro hc0
                injection hc0 with hc0
                subst hc0
                rw [sanitize_of_no_lt hnl]
                exact hnl
          · show sanitize message_allowed_tags (if v.message = [] then v.message
              else sanitize message_allowed_tags v.message) =
              (if v.message = [] then v.message
               else sanitize message_allowed_tags v.message)
            by_cases hz : v.message = []
            · rw [if_pos hz, hz]; rfl
            · rw [if_neg hz, sanitize_idem]
  · rw [if_neg hc1] at h
    exact absurd (congrArg Prod.fst h) (by simp)

/-- Witness for the amended C8: a concrete successful create. -/
theorem c8_witness :
    ∃ r : Record, (createView [] baseSys baseRequest 10000).2.store =
        baseSys.store ++ [r] ∧
      '<' ∉ r.theme ∧ '<' ∉ r.name_person ∧
      (∀ c, r.name_company = some c → '<' ∉ c) ∧
      sanitize message_allowed_tags r.message = r.message := by
  have h1 : (createView [] baseSys baseRequest 10000).1 = .success 1 := by decide
  have h : createView [] baseSys baseRequest 10000 =
      (.success 1, (createView [] baseSys baseRequest 10000).2) := by
    rw [← h1]
  exact c8_create_path_sanitized [] baseSys baseRequest 10000 1 _ h

/-- Claim C7 counterexample: the DRF dispatch checks throttles before the
create method runs, so a client that is both blocked and over quota receives
the rate-limit response, not the Forbidden one, contradicting the claim that
the blocklist rejection comes first. -/
theorem c7_counterexample :
    ("203.0.113.5".data ∈ ["203.0.113.5".data]) ∧
    (createView ["203.0.113.5".data]
      { store := [], throttle := saturatedThrottle, nextId := 1 }
      baseRequest 10000).1 = .tooMany ∧
    (createView ["203.0.113.5".data]
      { store := [], throttle := saturatedThrottle, nextId := 1 }
      baseRequest 10000).1 ≠ .forbidden := by
  refine ⟨by decide, by decide, by decide⟩

/-- Claim C7 amended: the blocked-IP check runs after the rate-limit
admission check but before any field validation.  A blocked client that
passes admission control gets the Forbidden response with nothing persisted,
whatever the payload; a blocked client that is over quota gets the rate-limit
response instead. -/
theorem c7_blocklist_after_throttle (blocked_ips : List Str) (s : Sys)
    (req : Request) (now : Int) (hb : req.ip ∈ blocked_ips) :
    ((checkThrottles s.throttle req.ip req.user now).1 = true →
      (createView blocked_ips s req now).1 = .forbidden ∧
      (createView blocked_ips s req now).2.store = s.store) ∧
    ((checkThrottles s.throttle req.ip req.user now).1 = false →
      (createView blocked_ips s req now).1 = .tooMany ∧
      (createView blocked_ips s req now).2.store = s.store) ∧
    (∀ d : RawInput, createView blocked_ips s { req with data := d } now =
      createView blocked_ips s req now) := by
  refine ⟨?_, ?_, ?_⟩
  · intro hc1
    simp only [createView]
    rw [if_pos hc1, if_pos hb]
    exact ⟨rfl, rfl⟩
  · intro hc1
    simp only [createView]
    rw [hc1]
    simp only [Bool.false_eq_true, if_false]
    exact ⟨trivial, trivial⟩
  · intro d
    simp only [createView]
    by_cases hc1 : (checkThrottles s.throttle req.ip req.user now).1 = true
    · rw [if_pos hc1, if_pos hc1, if_pos hb, if_pos hb]
    · rw [if_neg hc1, if_neg hc1]

/-- Witness for the amended C7: a concrete blocked request under quota. -/
theorem c7_witness :
    ((checkThrottles baseSys.throttle baseRequest.ip baseRequest.user 10000).1 = true →
      (createView ["203.0.113.5".data] baseSys baseRequest 10000).1 = .forbidden ∧
      (createView ["203.0.113.5".data] baseSys baseRequest 10000).2.store =
        baseSys.store) ∧
    ((checkThrottles baseSys.throttle baseRequest.ip baseRequest.user 10000).1 = false →
      (createView ["203.0.113.5".data] baseSys baseRequest 10000).1 = .tooMany ∧
      (createView ["203.0.113.5".data] baseSys baseRequest 10000).2.store =
        baseSys.store) ∧
    (∀ d : RawInput, createView ["203.0.113.5".data] baseSys
        { baseRequest with data := d } 10000 =
      createView ["203.0.113.5".data] baseSys baseRequest 10000) :=
  c7_blocklist_after_throttle ["203.0.113.5".data] baseSys baseRequest 10000 (by decide)

/-- Claim C6: anonymous clients are limited to 5 requests per rolling hour,
keyed by IP: with 5 recorded requests inside the trailing hour a further
request is rejected with the 429 rate-limit result (distinct from the 400
validation results) and nothing is persisted; the outcome for a request is
unaffected by the history of any other IP; authenticated clients are limited
to 10 per rolling hour, keyed by identity. -/
theorem c6_rate_limits (blocked_ips : List Str) (s : Sys) (req : Request) (now : Int) :
    (req.user = none →
      5 ≤ ((s.throttle.anonHist req.ip).filter (fun t => decide (now - 3600 < t))).length →
      (createView blocked_ips s req now).1 = .tooMany ∧
      (createView blocked_ips s req now).2.store = s.store) ∧
    (∀ u, req.user = some u →
      (10 ≤ ((s.throttle.userHist u).filter (fun t => decide (now - 3600 < t))).length →
        (createView blocked_ips s req now).1 = .tooMany) ∧
      (((s.throttle.userHist u).filter (fun t => decide (now - 3600 < t))).length < 10 →
        (createView blocked_ips s req now).1 ≠ .tooMany)) ∧
    (∀ t1 t2 : ThrottleState, ∀ ip : Str, req.user = none → req.ip ≠ ip →
      (∀ k, k ≠ ip → t1.anonHist k = t2.anonHist k) →
      (∀ k, k ≠ ip → t1.userHist k = t2.userHist k) →
      (createView blocked_ips { s with throttle := t1 } req now).1 =
        (createView blocked_ips { s with throttle := t2 } req now).1 ∧
      (createView blocked_ips { s with throttle := t1 } req now).2.store =
        (createView blocked_ips { s with throttle := t2 } req now).2.store) ∧
    (∀ errs, CreateResult.tooMany ≠ CreateResult.fieldErrs errs ∧
      CreateResult.tooMany ≠ CreateResult.dupErr) := by
  refine ⟨?_, ?_, ?_, ?_⟩
  · intro hu hcount
    have hanon : (throttleAllow (s.throttle.anonHist req.ip) 5 now).1 = false := by
      simp only [throttleAllow]
      rw [if_neg (by omega)]
    have hchk : (checkThrottles s.throttle req.ip req.user now).1 = false := by
      simp only [checkThrottles, hu]
      rw [hanon]
      simp
    simp only [createView]
    rw [hchk]
    simp only [Bool.false_eq_true, if_false]
    exact ⟨trivial, trivial⟩
  · intro u hu
    constructor
    · intro hcount
      have huser10 : (throttleAllow (s.throttle.userHist u) 10 now).1 = false := by
        simp only [throttleAllow]
        rw [if_neg (by omega)]
      have hchk : (checkThrottles s.throttle req.ip req.user now).1 = false := by
        simp only [checkThrottles, hu]
        rw [huser10]
        simp
      simp only [createView]
      rw [hchk]
      simp only [Bool.false_eq_true, if_false]
    · intro hcount
      have huser10 : (throttleAllow (s.throttle.userHist u) 10 now).1 = true := by
        simp only [throttleAllow]
        rw [if_pos (by omega)]
      have hchk : (checkThrottles s.throttle req.ip req.user now).1 = true := by
        simp only [checkThrottles, hu]
        rw [huser10]
        simp
      simp only [createView]
      rw [if_pos hchk]
      by_cases hb : req.ip ∈ blocked_ips
      · rw [if_pos hb]
        simp
      · rw [if_neg hb]
        cases hfv : fieldValidate req.data with
        | none => simp
        | some v =>
          by_cases hdup : dupRecent s.store v.email v.theme now = true
          · simp [hdup]
          · simp [hdup]
  · intro t1 t2 ip hu hne hag1 hag2
    have e1 : t1.anonHist req.ip = t2.anonHist req.ip := hag1 req.ip hne
    have e2 : t1.userHist req.ip = t2.userHist req.ip := hag2 req.ip hne
    have hchk : (checkThrottles t1 req.ip req.user now).1 =
        (checkThrottles t2 req.ip req.user now).1 := by
      simp only [checkThrottles, hu]
      rw [e1, e2]
    by_cases hc : (checkThrottles t2 req.ip req.user now).1 = true
    · have hc1 : (checkThrottles t1 req.ip req.user now).1 = true := by
        rw [hchk]; exact hc
      simp only [createView]
      rw [if_pos hc1, if_pos hc]
      by_cases hb : req.ip ∈ blocked_ips
      · rw [if_pos hb, if_pos hb]
        exact ⟨rfl, rfl⟩
      · rw [if_neg hb, if_neg hb]
        cases hfv : fieldValidate req.data with
        | none => exact ⟨rfl, rfl⟩
        | some v =>
          by_cases hdup : dupRecent s.store v.email v.theme now = true
          · simp [hdup]
          · simp [hdup]
    · have hc1 : ¬ (checkThrottles t1 req.ip req.user now).1 = true := by
        rw [hchk]; exact hc
      simp only [createView]
      rw [if_neg hc1, if_neg hc]
      constructor
      · rfl
      · rfl
  · intro errs
    exact ⟨(fun h => nomatch h), (fun h => nomatch h)⟩

/-- Witness for C6 at concrete states: a saturated anonymous IP is throttled
with nothing stored, an authenticated client with empty history is not
throttled, a fresh anonymous IP is unaffected by another saturated IP, and
the rate-limit result differs from the validation results. -/
theorem c6_witness :
    ((createView [] saturatedSys baseRequest 10000).1 = .tooMany ∧
      (createView [] saturatedSys baseRequest 10000).2.store = saturatedSys.store) ∧
    ((createView [] { store := [], throttle := saturatedThrottle, nextId := 1 }
        authRequest 10000).1 ≠ .tooMany) ∧
    ((createView [] { baseSys with throttle := saturatedAt ("203.0.113.5".data) }
        otherRequest 10000).1 =
      (createView [] { baseSys with throttle := emptyThrottle } otherRequest 10000).1) ∧
    (CreateResult.tooMany ≠ CreateResult.fieldErrs ["email"] ∧
      CreateResult.tooMany ≠ CreateResult.dupErr) := by
  have main := c6_rate_limits [] saturatedSys baseRequest 10000
  refine ⟨main.1 rfl (by decide), ?_, ?_, ?_⟩
  · have m2 := c6_rate_limits []
      { store := [], throttle := saturatedThrottle, nextId := 1 } authRequest 10000
    exact (m2.2.1 ("7".data) rfl).2 (by decide)
  · have m3 := c6_rate_limits [] baseSys otherRequest 10000
    exact (m3.2.2.1 (saturatedAt ("203.0.113.5".data)) emptyThrottle
      ("203.0.113.5".data) rfl (by decide)
      (fun k hk => by simp [saturatedAt, emptyThrottle, hk])
      (fun k hk => by simp [saturatedAt, emptyThrottle])).1
  · exact (c6_rate_limits [] baseSys baseRequest 10000).2.2.2 ["email"]


theorem dupRecent_iff (store : List Record) (email theme : Str) (now : Int) :
    dupRecent store email theme now = true ↔
      ∃ r ∈ store, r.email = email ∧ r.theme = theme ∧ now - 3600 ≤ r.created_at := by
  simp [dupRecent, List.any_eq_true]
  constructor
  · rintro ⟨r, h1, ⟨h2, h3⟩, h4⟩
    exact ⟨r, h1, h2, h3, h4⟩
  · rintro ⟨r, h1, h2, h3, h4⟩
    exact ⟨r, h1, ⟨h2, h3⟩, h4⟩

/-- Claim C1: with validated attrs in hand and admission granted, a create is
rejected as a duplicate with nothing persisted when some stored record with
the same validated email and theme was created inside the trailing hour
(created_at at or after now minus 3600), and succeeds, appending exactly one
row, when every such record is older than one hour. -/
theorem c1_duplicate_window (blocked_ips : List Str) (s : Sys) (req : Request)
    (now : Int) (v : Validated)
    (hfv : fieldValidate req.data = some v)
    (hthr : (checkThrottles s.throttle req.ip req.user now).1 = true)
    (hnb : req.ip ∉ blocked_ips) :
    ((∃ r ∈ s.store, r.email = v.email ∧ r.theme = v.theme ∧
        now - 3600 ≤ r.created_at) →
      (createView blocked_ips s req now).1 = .dupErr ∧
      (createView blocked_ips s req now).2.store = s.store) ∧
    ((∀ r ∈ s.store, r.email = v.email → r.theme = v.theme →
        r.created_at < now - 3600) →
      (createView blocked_ips s req now).1 = .success s.nextId ∧
      (createView blocked_ips s req now).2.store =
        s.store ++ [modelSaveClean (newRecord v req.ip req.user_agent now s.nextId)]) := by
  constructor
  · intro hex
    have hdup : dupRecent s.store v.email v.theme now = true :=
      (dupRecent_iff _ _ _ _).mpr hex
    simp only [createView, hfv]
    rw [if_pos hthr, if_neg hnb, if_pos hdup]
    exact ⟨rfl, rfl⟩
  · intro hall
    have hdup : ¬ dupRecent s.store v.email v.theme now = true := by
      intro hd
      obtain ⟨r, hr, hemail, htheme, hle⟩ := (dupRecent_iff _ _ _ _).mp hd
      have := hall r hr hemail htheme
      omega
    simp only [createView, hfv]
    rw [if_pos hthr, if_neg hnb, if_neg hdup]
    exact ⟨rfl, rfl⟩

/-- Witness for C1: the stored example row at time 9000 blocks an identical
validated resubmission at 10000, and a row from time 3000 (more than an hour
earlier) lets it through. -/
theorem c1_witness :
    ((createView [] storeSys baseRequest 10000).1 = .dupErr ∧
      (createView [] storeSys baseRequest 10000).2.store = storeSys.store) ∧
    ((createView [] oldStoreSys baseRequest 10000).1 = .success oldStoreSys.nextId ∧
      (createView [] oldStoreSys baseRequest 10000).2.store = oldStoreSys.store ++
        [modelSaveClean (newRecord baseValidated baseRequest.ip
          baseRequest.user_agent 10000 oldStoreSys.nextId)]) := by
  have m1 := c1_duplicate_window [] storeSys baseRequest 10000 baseValidated
    (by decide) (by decide) (by decide)
  have m2 := c1_duplicate_window [] oldStoreSys baseRequest 10000 baseValidated
    (by decide) (by decide) (by decide)
  exact ⟨m1.1 (by decide), m2.2 (by decide)⟩

/-- Claim C3: when any field validator fails, the create pipeline (past
admission control) rejects with the 400 response carrying the aggregated
error report, persists nothing, and the report keys are exactly the failing
fields among the declared serializer fields. -/
theorem c3_error_aggregation (blocked_ips : List Str) (s : Sys) (req : Request)
    (now : Int)
    (hthr : (checkThrottles s.throttle req.ip req.user now).1 = true)
    (hnb : req.ip ∉ blocked_ips)
    (hfail : fieldErrorKeys req.data ≠ []) :
    (createView blocked_ips s req now).1 = .fieldErrs (fieldErrorKeys req.data) ∧
    (createView blocked_ips s req now).2.store = s.store ∧
    (∀ f, f ∈ fieldErrorKeys req.data ↔
      f ∈ serializer_fields ∧ fieldFails req.data f = true) := by
  have hfv : fieldValidate req.data = none := by
    by_contra hne
    exact hfail ((fieldErrorKeys_nil_iff req.data).mpr hne)
  simp only [createView, hfv]
  rw [if_pos hthr, if_neg hnb]
  exact ⟨rfl, rfl, fun f => mem_fieldErrorKeys req.data f⟩

/-- Witness for C3: an input failing the theme, email and message rules at
once is rejected with a report naming exactly those three fields. -/
theorem c3_witness :
    ((createView [] baseSys badRequest 10000).1 =
        .fieldErrs (fieldErrorKeys badInput) ∧
      (createView [] baseSys badRequest 10000).2.store = baseSys.store ∧
      (∀ f, f ∈ fieldErrorKeys badInput ↔
        f ∈ serializer_fields ∧ fieldFails badInput f = true)) ∧
    fieldErrorKeys badInput = ["theme", "email", "message"] := by
  have main := c3_error_aggregation [] baseSys badRequest 10000
    (by decide) (by decide) (by decide)
  exact ⟨main, by decide⟩


/-- Claim C4: for a syntactically valid, non-blank email, the email pipeline
rejects with a field error on email exactly when the lowercased domain part
after the at-sign is on the disposable-domain blocklist, and otherwise
returns the lowercased trimmed value. -/
theorem c4_email_validation (e : Str)
    (hvalid : pyEmailValid (trimL e) = true) (hne : trimL e ≠ []) :
    (lowerStr ((splitOnChar '@' (trimL e)).getD 1 []) ∈ suspicious_domains →
      runEmail (some e) = none ∧
      (∀ i : RawInput, i.email = some e → "email" ∈ fieldErrorKeys i)) ∧
    (lowerStr ((splitOnChar '@' (trimL e)).getD 1 []) ∉ suspicious_domains →
      runEmail (some e) = some (lowerStr (trimL e))) := by
  have hat : '@' ∈ trimL e := by
    rw [pyEmailValid] at hvalid
    cases hs : splitOnChar '@' (trimL e) with
    | nil => rw [hs] at hvalid; simp at hvalid
    | cons lp t =>
      cases t with
      | nil => rw [hs] at hvalid; simp at hvalid
      | cons dom t2 =>
        cases t2 with
        | nil => exact mem_of_splitOnChar_two hs
        | cons x t3 => rw [hs] at hvalid; simp at hvalid
  constructor
  · intro hdom
    have hre : runEmail (some e) = none := by
      show (if trimL e = [] then none
        else if pyEmailValid (trimL e) = true then validate_email (trimL e)
        else none) = none
      rw [if_neg hne, if_pos hvalid, validate_email, if_neg hne]
      show (if (if '@' ∈ trimL e then
              lowerStr ((splitOnChar '@' (trimL e)).getD 1 []) else [])
            ∈ suspicious_domains
          then none else some (trimL (lowerStr (trimL e)))) = none
      rw [if_pos hat, if_pos hdom]
    refine ⟨hre, ?_⟩
    intro i hi
    apply (mem_fieldErrorKeys i "email").mpr
    refine ⟨by decide, ?_⟩
    show (runEmail i.email).isNone = true
    rw [hi, hre]
    rfl
  · intro hdom
    show (if trimL e = [] then none
      else if pyEmailValid (trimL e) = true then validate_email (trimL e)
      else none) = some (lowerStr (trimL e))
    rw [if_neg hne, if_pos hvalid, validate_email, if_neg hne]
    show (if (if '@' ∈ trimL e then
            lowerStr ((splitOnChar '@' (trimL e)).getD 1 []) else [])
          ∈ suspicious_domains
        then none else some (trimL (lowerStr (trimL e)))) = some (lowerStr (trimL e))
    rw [if_pos hat, if_neg hdom, trimL_lowerStr_trimL]

/-- Witness for C4: the spec example JOHN at EXAMPLE.COM with a trailing
space is stored lowercased and trimmed, and a mailinator.com address is
rejected with a field error on email. -/
theorem c4_witness :
    (runEmail (some ("JOHN@EXAMPLE.COM ".data)) = some ("john@example.com".data)) ∧
    (runEmail (some ("user@MAILINATOR.com".data)) = none ∧
      (∀ i : RawInput, i.email = some ("user@MAILINATOR.com".data) →
        "email" ∈ fieldErrorKeys i)) := by
  have m1 := c4_email_validation ("JOHN@EXAMPLE.COM ".data) (by decide) (by decide)
  have m2 := c4_email_validation ("user@MAILINATOR.com".data) (by decide) (by decide)
  refine ⟨?_, m2.1 (by decide)⟩
  have hv := m1.2 (by decide)
  rw [hv]
  decide


set_option maxRecDepth 8000 in
/-- Claim C10 counterexample: the stored row matches the resubmission up to
normalization (its email differs only in case and whitespace, its theme only
by stripped markup), and the window is open, yet the second submission is
rejected with a field error on theme rather than treated as a duplicate: the
raw trimmed theme exceeds the 200-character length check, which runs on the
raw value before normalization. -/
theorem c10_counterexample :
    trimL (strip_tags (trimL markupTheme)) =
      trimL (strip_tags (trimL ("Partnership inquiry".data))) ∧
    lowerStr (trimL ("JOHN@example.com ".data)) =
      lowerStr (trimL ("JOHN@EXAMPLE.COM ".data)) ∧
    (createView [] storeSys overlongRequest 10000).1 = .fieldErrs ["theme"] ∧
    (createView [] storeSys overlongRequest 10000).1 ≠ .dupErr := by
  refine ⟨by decide, by decide, by decide, by decide⟩

/-- Claim C10 amended: the duplicate check compares post-validation values,
so a resubmission whose email differs only up to lowercasing and trimming and
whose theme differs only up to markup stripping and trimming is rejected as a
duplicate inside the window, provided its raw trimmed theme stays within the
200-character raw length check (which runs before normalization, see the
counterexample). -/
theorem c10_normalized_duplicate (blocked_ips : List Str) (s : Sys)
    (req1 req2 : Request) (now1 now2 : Int) (rid : Nat) (s2 : Sys)
    (e1 e2 t1 t2 : Str)
    (he1 : req1.data.email = some e1) (he2 : req2.data.email = some e2)
    (ht1 : req1.data.theme = some t1) (ht2 : req2.data.theme = some t2)
    (hact : req2.data.actor = req1.data.actor)
    (hcomp : req2.data.name_company = req1.data.name_company)
    (hpers : req2.data.name_person = req1.data.name_person)
    (hmsg : req2.data.message = req1.data.message)
    (hne : lowerStr (trimL e1) = lowerStr (trimL e2))
    (hnt : trimL (strip_tags (trimL t1)) = trimL (strip_tags (trimL t2)))
    (hlen2 : (trimL t2).length ≤ 200)
    (h1 : createView blocked_ips s req1 now1 = (.success rid, s2))
    (hwin : now2 - 3600 ≤ now1)
    (hthr2 : (checkThrottles s2.throttle req2.ip req2.user now2).1 = true)
    (hnb2 : req2.ip ∉ blocked_ips) :
    (createView blocked_ips s2 req2 now2).1 = .dupErr ∧
    (createView blocked_ips s2 req2 now2).2.store = s2.store := by
  -- step 1: invert the first, successful create
  simp only [createView] at h1
  by_cases hc1 : (checkThrottles s.throttle req1.ip req1.user now1).1 = true
  case neg =>
    rw [if_neg hc1] at h1
    exact absurd (congrArg Prod.fst h1) (by simp)
  rw [if_pos hc1] at h1
  by_cases hb1 : req1.ip ∈ blocked_ips
  case pos =>
    rw [if_pos hb1] at h1
    exact absurd (congrArg Prod.fst h1) (by simp)
  rw [if_neg hb1] at h1
  cases hfv1 : fieldValidate req1.data with
  | none =>
    rw [hfv1] at h1
    exact absurd (congrArg Prod.fst h1) (by simp)
  | some v1 =>
    rw [hfv1] at h1
    simp only [] at h1
    by_cases hdup1 : dupRecent s.store v1.email v1.theme now1 = true
    case pos =>
      rw [if_pos hdup1] at h1
      exact absurd (congrArg Prod.fst h1) (by simp)
    rw [if_neg hdup1] at h1
    have hs2 := (congrArg Prod.snd h1).symm
    simp only [Prod.snd] at hs2
    -- step 2: the per-field results of the first submission
    obtain ⟨ha1, hth1, hem1, hco1, hpe1, hme1⟩ := fieldValidate_some_inv hfv1
    rw [ht1] at hth1
    rw [he1] at hem1
    -- step 3: the second submission validates to the same attrs
    have hth2 : runTheme req2.data.theme = some v1.theme := by
      rw [ht2]
      exact runTheme_norm hth1 hnt hlen2
    have hem2 : runEmail req2.data.email = some v1.email := by
      rw [he2, ← runEmail_norm_eq hne, hem1]
    have hfv2 : fieldValidate req2.data = some v1 := by
      have := fieldValidate_intro (hact ▸ ha1) hth2 hem2 (hcomp ▸ hco1)
        (hpers ▸ hpe1) (hmsg ▸ hme1)
      exact this
    -- step 4: the stored first row still carries the validated email and theme
    have hrowtheme : (modelSaveClean (newRecord v1 req1.ip req1.user_agent now1
        s.nextId)).theme = v1.theme := by
      show (if v1.theme = [] then v1.theme
        else sanitize bleach_default_tags v1.theme) = v1.theme
      by_cases hz : v1.theme = []
      · rw [if_pos hz]
      · rw [if_neg hz, sanitize_of_no_lt (runTheme_some_no_lt hth1)]
    have hrowemail : (modelSaveClean (newRecord v1 req1.ip req1.user_agent now1
        s.nextId)).email = v1.email := rfl
    have hdup2 : dupRecent s2.store v1.email v1.theme now2 = true := by
      apply (dupRecent_iff _ _ _ _).mpr
      refine ⟨modelSaveClean (newRecord v1 req1.ip req1.user_agent now1 s.nextId),
        ?_, hrowemail, hrowtheme, ?_⟩
      · rw [hs2]
        simp
      · show now2 - 3600 ≤ (modelSaveClean (newRecord v1 req1.ip req1.user_agent
          now1 s.nextId)).created_at
        show now2 - 3600 ≤ now1
        exact hwin
    -- step 5: run the second create
    simp only [createView, hfv2]
    rw [if_pos hthr2, if_neg hnb2, if_pos hdup2]
    exact ⟨rfl, rfl⟩

/-- Witness for the amended C10: after the example submission is accepted at
time 9000, a resubmission at 10000 whose email differs only in case and
whitespace and whose theme differs only by markup and whitespace is rejected
as a duplicate with nothing persisted. -/
theorem c10_witness :
    (createView [] (createView [] baseSys baseRequest 9000).2 dupRequest 10000).1 =
      .dupErr ∧
    (createView [] (createView [] baseSys baseRequest 9000).2 dupRequest 10000).2.store =
      (createView [] baseSys baseRequest 9000).2.store := by
  have h9 : (createView [] baseSys baseRequest 9000).1 = .success 1 := by decide
  have h1 : createView [] baseSys baseRequest 9000 =
      (.success 1, (createView [] baseSys baseRequest 9000).2) := by
    rw [← h9]
  exact c10_normalized_duplicate [] baseSys baseRequest dupRequest 9000 10000 1
    (createView [] baseSys baseRequest 9000).2
    ("JOHN@EXAMPLE.COM ".data) ("JOHN@example.com ".data)
    ("Partnership inquiry".data) ("<em>Partnership inquiry</em> ".data)
    rfl rfl rfl rfl rfl rfl rfl rfl
    (by decide) (by decide) (by decide) h1 (by decide) (by decide) (by decide)

end PCBack
